import Mathlib

/-!
# Verification of the `@ohfc/tiny-pool` worker pool

Shallow embedding of `src/lib/tiny-pool/src/index.ts` (class `WorkerPool`),
`src/lib/tiny-pool/src/queue.ts` (class `TaskQueue`) and
`src/lib/tiny-pool/src/worker.ts` (`defineWorker`).

The pool is a single-threaded event-driven coordinator: all mutations of
`usedSlots`, the queue, the worker lists and the waiter list happen in
synchronous runs between `await` points.  We model each such synchronous run
as one atomic step on an explicit `PoolState`, and the asynchronous
environment (worker `message` / `error` / `exit` events, resumption of a
suspended `run` caller after its `await`) as events of a small-step
transition relation `stepE`.

Machine integers: `usedSlots` is a JS number used as a counter; we model it
as `Int` (so that claims about non-negativity are meaningful).
`maxQueueSize` defaults to `Infinity`; we model it as `Option Nat` with
`none` standing for `Infinity` (`usedSlots < Infinity` is always true,
`usedSlots >= Infinity` is always false, faithful to JS).

Tasks are identified by `Nat` ids; a task's settlement (which of
`resolve` / `reject` fired, and with what value) is recorded in the
`settled` log.  Workers are identified by `Nat` ids; `idleWorkers` holds ids
referencing the records in `workers`, mirroring the by-reference aliasing of
`PooledWorker` objects in the source (a duplicated id denotes the same
worker object).

Ghost fields (`handoffs`, `waitLog`, `resumeLog`) are write-only
instrumentation recording, respectively, how many times `releaseQueueSlot`
took its waiter branch, the order in which callers were suspended on the
waiter list, and the order in which they were resumed.  No operation's
control flow reads them.
-/

/-- A value sent back from a worker thread over `postMessage`.  With
`defineWorker` a thrown error is caught and posted as the object
`\x7b error: message \x7d` (an ordinary message, not an `error` event). -/
inductive JSValue where
  | ok (n : Nat)
  | errObj (msg : String)
deriving DecidableEq, Repr

/-- How a task's promise settled: `resolve(v)` or `reject`. -/
inductive Settle where
  | resolved (v : JSValue)
  | rejected
deriving DecidableEq, Repr

/-- Outcome of the synchronous prefix of `run` (up to the first `await`). -/
inductive RunResult where
  | throwsDestroyed
  | admitted
  | waiting
deriving DecidableEq, Repr

/-- Outcome of the continuation of `run` after `await acquireQueueSlot()`. -/
inductive RunContinueResult where
  | throwsDestroyed
  | enqueued
deriving DecidableEq, Repr

/-- `class PooledWorker`: wraps one worker thread and the single task
currently assigned to it.  `alive` models whether the underlying thread has
exited (a dead thread emits no further `message`/`error` events and ignores
`postMessage`). -/
structure PooledWorker where
  wid : Nat
  currentTask : Option Nat
  alive : Bool
deriving DecidableEq, Repr

/-- The coordinator state of `class WorkerPool` (plus ghost instrumentation,
see the module docstring). -/
structure PoolState where
  maxQueueSize : Option Nat
  destroyed : Bool
  usedSlots : Int
  slotWaiters : List Nat
  /-- `run` callers whose `await acquireQueueSlot()` has resolved but whose
  continuation (destroyed re-check + enqueue) has not run yet. -/
  pendingRuns : List Nat
  queue : List Nat
  workers : List PooledWorker
  idleWorkers : List Nat
  settled : List (Nat × Settle)
  nextWorker : Nat
  handoffs : Nat
  waitLog : List Nat
  resumeLog : List Nat
deriving DecidableEq, Repr

/-- Freshly constructed pool: all collections empty, `usedSlots = 0`. -/
def initState (max : Option Nat) : PoolState :=
  { maxQueueSize := max
    destroyed := false
    usedSlots := 0
    slotWaiters := []
    pendingRuns := []
    queue := []
    workers := []
    idleWorkers := []
    settled := []
    nextWorker := 0
    handoffs := 0
    waitLog := []
    resumeLog := [] }

/-- `this.usedSlots < this.maxQueueSize` (true when `maxQueueSize` is
`Infinity`). -/
def usedSlotsLtMax (u : Int) (m : Option Nat) : Bool :=
  match m with
  | none => true
  | some mq => decide (u < (mq : Int))

/-- `get isQueueFull(): usedSlots >= maxQueueSize` (false when
`maxQueueSize` is `Infinity`). -/
def isQueueFull (s : PoolState) : Bool :=
  match s.maxQueueSize with
  | none => false
  | some mq => decide ((mq : Int) ≤ s.usedSlots)

/-- Look a worker record up by id. -/
def findWorker (ws : List PooledWorker) (wid : Nat) : Option PooledWorker :=
  ws.find? (fun w => w.wid = wid)

/-- `pooled.currentTask = task` through the shared reference. -/
def setCurrentTask (ws : List PooledWorker) (wid tid : Nat) : List PooledWorker :=
  ws.map (fun w => if w.wid = wid then { w with currentTask := some tid } else w)

/-- `pooled.currentTask = null` through the shared reference. -/
def clearCurrentTask (ws : List PooledWorker) (wid : Nat) : List PooledWorker :=
  ws.map (fun w => if w.wid = wid then { w with currentTask := none } else w)

/-- Mark the worker thread as exited. -/
def markDead (ws : List PooledWorker) (wid : Nat) : List PooledWorker :=
  ws.map (fun w => if w.wid = wid then { w with alive := false } else w)

/-- `releaseQueueSlot()`: if a waiter is queued, shift it and call it — the
waiter's callback does `usedSlots += 1` and resolves the waiter's promise
(so its `run` continuation becomes pending); otherwise, if `usedSlots > 0`,
decrement it.  Note the waiter branch performs no decrement. -/
def releaseQueueSlot (s : PoolState) : PoolState :=
  match s.slotWaiters with
  | w :: rest =>
      { s with slotWaiters := rest
               usedSlots := s.usedSlots + 1
               pendingRuns := s.pendingRuns ++ [w]
               handoffs := s.handoffs + 1
               resumeLog := s.resumeLog ++ [w] }
  | [] =>
      if 0 < s.usedSlots then { s with usedSlots := s.usedSlots - 1 } else s

/-- The synchronous prefix of `run(taskData)`: the destroyed check and
`acquireQueueSlot()` up to its `await`.  If the pool is destroyed it throws;
if `usedSlots < maxQueueSize` the slot is reserved and the continuation of
`run` becomes pending; otherwise the caller is appended to `slotWaiters`. -/
def run (s : PoolState) (tid : Nat) : PoolState × RunResult :=
  if s.destroyed then (s, RunResult.throwsDestroyed)
  else if usedSlotsLtMax s.usedSlots s.maxQueueSize then
    ({ s with usedSlots := s.usedSlots + 1
              pendingRuns := s.pendingRuns ++ [tid] }, RunResult.admitted)
  else
    ({ s with slotWaiters := s.slotWaiters ++ [tid]
              waitLog := s.waitLog ++ [tid] }, RunResult.waiting)

/-- One iteration body plus loop of `processQueue()`, driven by explicit
fuel.  Each iteration shifts an idle worker and dequeues the head task,
calls `releaseQueueSlot()` ("free the queue slot as soon as the task leaves
the queue"), then assigns the task to the shifted worker.  Fuel equal to the
queue length is enough: every iteration consumes one queued task. -/
def processQueueFuel : Nat → PoolState → PoolState
  | 0, s => s
  | Nat.succ fuel, s =>
      match s.idleWorkers, s.queue with
      | wid :: idleRest, tid :: qRest =>
          let s1 := releaseQueueSlot { s with idleWorkers := idleRest, queue := qRest }
          processQueueFuel fuel { s1 with workers := setCurrentTask s1.workers wid tid }
      | _, _ => s

/-- `processQueue()`: while there is an idle worker and a queued task, pair
the oldest of each. -/
def processQueue (s : PoolState) : PoolState :=
  processQueueFuel s.queue.length s

/-- The continuation of `run` after `await acquireQueueSlot()` resolves
(for the head pending caller): re-check `destroyed` (releasing the slot and
throwing if so), otherwise enqueue the task and call `processQueue()`.
Returns `none` when no continuation is pending. -/
def runContinue (s : PoolState) : Option (PoolState × RunContinueResult) :=
  match s.pendingRuns with
  | [] => none
  | tid :: rest =>
      if s.destroyed then
        some (releaseQueueSlot { s with pendingRuns := rest },
              RunContinueResult.throwsDestroyed)
      else
        some (processQueue { s with pendingRuns := rest, queue := s.queue ++ [tid] },
              RunContinueResult.enqueued)

/-- `createWorker()`: spawn a worker, push it onto `idleWorkers` and
`workers`. -/
def createWorker (s : PoolState) : PoolState :=
  { s with workers := s.workers ++ [{ wid := s.nextWorker, currentTask := none, alive := true }]
           idleWorkers := s.idleWorkers ++ [s.nextWorker]
           nextWorker := s.nextWorker + 1 }

/-- Number of workers `startThreads()` spawns:
`options?.threads ?? availableParallelism() - 1`.  There is no lower bound
in the source. -/
def threadCount (threadsOpt : Option Nat) (parallelism : Nat) : Nat :=
  threadsOpt.getD (parallelism - 1)

/-- Iterate `createWorker()` `n` times (the loop body of `startThreads`). -/
def spawnN (s : PoolState) : Nat → PoolState
  | 0 => s
  | Nat.succ n => createWorker (spawnN s n)

/-- `startThreads()`: call `createWorker()` `threadCount` times. -/
def startThreads (s : PoolState) (threadsOpt : Option Nat) (parallelism : Nat) : PoolState :=
  spawnN s (threadCount threadsOpt parallelism)

/-- The worker `message` handler: if the worker holds a task, resolve it
with the received value and clear `currentTask`; then (unconditionally)
push the worker onto `idleWorkers` and run `processQueue()`. -/
def workerMessage (s : PoolState) (wid : Nat) (v : JSValue) : PoolState :=
  let s1 :=
    match findWorker s.workers wid with
    | some w =>
        match w.currentTask with
        | some tid =>
            { s with workers := clearCurrentTask s.workers wid
                     settled := s.settled ++ [(tid, Settle.resolved v)] }
        | none => s
    | none => s
  processQueue { s1 with idleWorkers := s1.idleWorkers ++ [wid] }

/-- The worker `error` handler: if the worker holds a task, reject it and
clear `currentTask` (otherwise the error is emitted as a pool-level `error`
event); then (unconditionally) push the worker onto `idleWorkers` and run
`processQueue()`. -/
def workerError (s : PoolState) (wid : Nat) : PoolState :=
  let s1 :=
    match findWorker s.workers wid with
    | some w =>
        match w.currentTask with
        | some tid =>
            { s with workers := clearCurrentTask s.workers wid
                     settled := s.settled ++ [(tid, Settle.rejected)] }
        | none => s
    | none => s
  processQueue { s1 with idleWorkers := s1.idleWorkers ++ [wid] }

/-- The worker `exit` handler: the thread is dead; if the pool is not
destroyed and the exit code is non-zero, `createWorker()` spawns a
replacement.  The handler neither settles the dead worker's `currentTask`
nor removes the dead worker from `workers` / `idleWorkers`. -/
def workerExit (s : PoolState) (wid : Nat) (code : Nat) : PoolState :=
  let s1 := { s with workers := markDead s.workers wid }
  if ¬ s.destroyed ∧ code ≠ 0 then createWorker s1 else s1

/-- `destroy()`: set `destroyed`; drain every slot waiter (each drained
callback does `usedSlots += 1` and resumes the waiter's `run` continuation,
which will observe `destroyed` and throw); clear the queue without settling
its tasks; terminate and drop every worker; reset `usedSlots` to `0`.
The interleaved increments and the decrements performed by resumed waiters
during the terminate `await` are superseded by the final `usedSlots = 0`. -/
def destroy (s : PoolState) : PoolState :=
  { s with destroyed := true
           slotWaiters := []
           pendingRuns := s.pendingRuns ++ s.slotWaiters
           resumeLog := s.resumeLog ++ s.slotWaiters
           queue := []
           workers := []
           idleWorkers := []
           usedSlots := 0 }

/-- `defineWorker(fn)`'s `message` handler from `worker.ts`: apply `fn` to
the input; post the result on success, and on a thrown error post the
object `\x7b error: message \x7d` — in both cases via `postMessage`, never
via the worker `error` event. -/
def defineWorkerOnMessage (fn : Nat → Except String Nat) (data : Nat) : JSValue :=
  match fn data with
  | Except.ok r => JSValue.ok r
  | Except.error e => JSValue.errObj e

/-- Events driving the pool: a caller invoking `run`, a pending `run`
continuation resuming after its `await`, worker `message` / `error` /
`exit` events (only live workers emit events), `startThreads`, and
`destroy`. -/
inductive Event where
  | runStart (tid : Nat)
  | runContinue
  | workerMessage (wid : Nat) (v : JSValue)
  | workerError (wid : Nat)
  | workerExit (wid : Nat) (code : Nat)
  | startThreads (threadsOpt : Option Nat) (parallelism : Nat)
  | destroy
deriving DecidableEq, Repr

/-- Small-step transition: `none` when the event is impossible in the given
state (no pending continuation; event from an unknown or dead worker). -/
def stepE (s : PoolState) (e : Event) : Option PoolState :=
  match e with
  | Event.runStart tid => some (run s tid).1
  | Event.runContinue => (runContinue s).map (fun p => p.1)
  | Event.workerMessage wid v =>
      match findWorker s.workers wid with
      | some w => if w.alive then some (workerMessage s wid v) else none
      | none => none
  | Event.workerError wid =>
      match findWorker s.workers wid with
      | some w => if w.alive then some (workerError s wid) else none
      | none => none
  | Event.workerExit wid code =>
      match findWorker s.workers wid with
      | some w => if w.alive then some (workerExit s wid code) else none
      | none => none
  | Event.startThreads topt par => some (startThreads s topt par)
  | Event.destroy => some (destroy s)

/-- Run a whole event trace from a fresh pool; `none` when some event was
impossible. -/
def trace (max : Option Nat) (es : List Event) : Option PoolState :=
  es.foldlM stepE (initState max)

/-- States reachable from a fresh pool with the given `maxQueueSize`. -/
inductive Reachable (max : Option Nat) : PoolState → Prop where
  | init : Reachable max (initState max)
  | step (e : Event) {s s' : PoolState} :
      Reachable max s → stepE s e = some s' → Reachable max s'

/-- States reachable without any `destroy` event. -/
inductive ReachableNoDestroy (max : Option Nat) : PoolState → Prop where
  | init : ReachableNoDestroy max (initState max)
  | step (e : Event) {s s' : PoolState} :
      ReachableNoDestroy max s → e ≠ Event.destroy → stepE s e = some s' →
      ReachableNoDestroy max s'

/-- FIFO bookkeeping invariant: the waiters resumed so far, followed by the
waiters still suspended, are exactly the waiters that ever suspended, in
arrival order.  Hence waiters are resumed in first-come-first-served
order. -/
def fifoInv (s : PoolState) : Prop :=
  s.resumeLog ++ s.slotWaiters = s.waitLog

/-- Slot accounting: `usedSlots` equals the number of admitted tasks not
yet handed to a worker (pending enqueue plus queued) plus the number of
slot hand-offs performed by `releaseQueueSlot`'s waiter branch. -/
def slotAccounting (s : PoolState) : Prop :=
  s.usedSlots = (s.pendingRuns.length : Int) + (s.queue.length : Int) + (s.handoffs : Int)

theorem fifoInv_release {s : PoolState} (h : fifoInv s) : fifoInv (releaseQueueSlot s) := by
  unfold fifoInv releaseQueueSlot at *
  rcases hW : s.slotWaiters with _ | ⟨w, rest⟩
  · simp only
    split <;> simpa [hW] using h
  · simp only [List.append_assoc, List.singleton_append]
    rw [hW] at h
    exact h

theorem fifoInv_processQueueFuel (fuel : Nat) :
    ∀ s : PoolState, fifoInv s → fifoInv (processQueueFuel fuel s) := by
  induction fuel with
  | zero => intro s h; simpa [processQueueFuel] using h
  | succ n ih =>
      intro s h
      rcases hI : s.idleWorkers with _ | ⟨wid, idleRest⟩ <;>
        rcases hQ : s.queue with _ | ⟨tid, qRest⟩ <;>
          simp only [processQueueFuel, hI, hQ]
      · exact h
      · exact h
      · exact h
      · apply ih
        have h1 : fifoInv { s with idleWorkers := idleRest, queue := qRest } := h
        have h2 := fifoInv_release h1
        exact h2


theorem fifoInv_processQueue {s : PoolState} (h : fifoInv s) : fifoInv (processQueue s) :=
  fifoInv_processQueueFuel _ _ h

/-- Characterization of `runContinue`: it either has nothing to do, resumes
the head pending continuation into the destroyed-throw path, or enqueues it
and dispatches. -/
theorem runContinue_eq (s : PoolState) :
    (runContinue s = none ∧ s.pendingRuns = [])
    ∨ ∃ tid rest, s.pendingRuns = tid :: rest ∧
        ((s.destroyed = true ∧
            runContinue s = some (releaseQueueSlot { s with pendingRuns := rest },
              RunContinueResult.throwsDestroyed))
         ∨ (s.destroyed = false ∧
            runContinue s = some (processQueue { s with pendingRuns := rest, queue := s.queue ++ [tid] }, RunContinueResult.enqueued))) := by
  rcases hP : s.pendingRuns with _ | ⟨tid, rest⟩
  · exact Or.inl ⟨by simp [runContinue, hP], rfl⟩
  · refine Or.inr ⟨tid, rest, rfl, ?_⟩
    rcases hd : s.destroyed
    · exact Or.inr ⟨rfl, by simp [runContinue, hP, hd]⟩
    · exact Or.inl ⟨rfl, by simp [runContinue, hP, hd]⟩

/-- Characterization of the worker `message` handler: it updates only
`workers` and `settled`, pushes the worker onto `idleWorkers`, and runs
`processQueue`. -/
theorem workerMessage_eq (s : PoolState) (wid : Nat) (v : JSValue) :
    ∃ (ws : List PooledWorker) (st : List (Nat × Settle)),
      workerMessage s wid v
        = processQueue { s with workers := ws, settled := st,
                                idleWorkers := s.idleWorkers ++ [wid] } := by
  unfold workerMessage
  rcases hF : findWorker s.workers wid with _ | w
  · exact ⟨s.workers, s.settled, by simp [hF]⟩
  · rcases hCT : w.currentTask with _ | tid
    · exact ⟨s.workers, s.settled, by simp [hF, hCT]⟩
    · exact ⟨clearCurrentTask s.workers wid, s.settled ++ [(tid, Settle.resolved v)],
        by simp [hF, hCT]⟩

/-- Characterization of the worker `error` handler, analogous to
`workerMessage_eq`. -/
theorem workerError_eq (s : PoolState) (wid : Nat) :
    ∃ (ws : List PooledWorker) (st : List (Nat × Settle)),
      workerError s wid
        = processQueue { s with workers := ws, settled := st,
                                idleWorkers := s.idleWorkers ++ [wid] } := by
  unfold workerError
  rcases hF : findWorker s.workers wid with _ | w
  · exact ⟨s.workers, s.settled, by simp [hF]⟩
  · rcases hCT : w.currentTask with _ | tid
    · exact ⟨s.workers, s.settled, by simp [hF, hCT]⟩
    · exact ⟨clearCurrentTask s.workers wid, s.settled ++ [(tid, Settle.rejected)],
        by simp [hF, hCT]⟩

/-- Characterization of the worker `exit` handler: mark the thread dead,
then possibly spawn a replacement. -/
theorem workerExit_eq (s : PoolState) (wid code : Nat) :
    workerExit s wid code = createWorker { s with workers := markDead s.workers wid }
    ∨ workerExit s wid code = { s with workers := markDead s.workers wid } := by
  unfold workerExit
  split
  · exact Or.inl rfl
  · exact Or.inr rfl

/-- Extraction lemmas for `stepE` at worker events. -/
theorem stepE_workerMessage {s s' : PoolState} {wid : Nat} {v : JSValue}
    (hs : stepE s (Event.workerMessage wid v) = some s') :
    s' = workerMessage s wid v := by
  simp only [stepE] at hs
  rcases hF : findWorker s.workers wid with _ | w <;> rw [hF] at hs
  · simp at hs
  · simp at hs
    exact hs.2.symm

theorem stepE_workerError {s s' : PoolState} {wid : Nat}
    (hs : stepE s (Event.workerError wid) = some s') :
    s' = workerError s wid := by
  simp only [stepE] at hs
  rcases hF : findWorker s.workers wid with _ | w <;> rw [hF] at hs
  · simp at hs
  · simp at hs
    exact hs.2.symm

theorem stepE_workerExit {s s' : PoolState} {wid code : Nat}
    (hs : stepE s (Event.workerExit wid code) = some s') :
    s' = workerExit s wid code := by
  simp only [stepE] at hs
  rcases hF : findWorker s.workers wid with _ | w <;> rw [hF] at hs
  · simp at hs
  · simp at hs
    exact hs.2.symm

theorem fifoInv_run (s : PoolState) (tid : Nat) (h : fifoInv s) : fifoInv (run s tid).1 := by
  unfold run
  split
  · exact h
  · split
    · exact h
    · show s.resumeLog ++ (s.slotWaiters ++ [tid]) = s.waitLog ++ [tid]
      rw [← List.append_assoc, h]

theorem fifoInv_createWorker {s : PoolState} (h : fifoInv s) : fifoInv (createWorker s) := h

theorem fifoInv_spawnN (n : Nat) : ∀ s : PoolState, fifoInv s → fifoInv (spawnN s n) := by
  induction n with
  | zero => intro s h; exact h
  | succ m ih => intro s h; exact fifoInv_createWorker (ih s h)

theorem fifoInv_destroy {s : PoolState} (h : fifoInv s) : fifoInv (destroy s) := by
  show (s.resumeLog ++ s.slotWaiters) ++ [] = s.waitLog
  rw [List.append_nil, h]

theorem fifoInv_stepE {s s' : PoolState} {e : Event}
    (hs : stepE s e = some s') (h : fifoInv s) : fifoInv s' := by
  cases e with
  | runStart tid =>
      simp only [stepE, Option.some.injEq] at hs
      subst hs
      exact fifoInv_run s tid h
  | runContinue =>
      simp only [stepE] at hs
      rcases runContinue_eq s with ⟨hN, _⟩ | ⟨tid, rest, hP, ⟨hd, hEq⟩ | ⟨hd, hEq⟩⟩
      · rw [hN] at hs; simp at hs
      · rw [hEq] at hs
        simp only [Option.map_some', Option.some.injEq] at hs
        subst hs
        exact fifoInv_release h
      · rw [hEq] at hs
        simp only [Option.map_some', Option.some.injEq] at hs
        subst hs
        exact fifoInv_processQueue h
  | workerMessage wid v =>
      have hEq := stepE_workerMessage hs
      subst hEq
      obtain ⟨ws, st, hw⟩ := workerMessage_eq s wid v
      rw [hw]
      exact fifoInv_processQueue h
  | workerError wid =>
      have hEq := stepE_workerError hs
      subst hEq
      obtain ⟨ws, st, hw⟩ := workerError_eq s wid
      rw [hw]
      exact fifoInv_processQueue h
  | workerExit wid code =>
      have hEq := stepE_workerExit hs
      subst hEq
      rcases workerExit_eq s wid code with hw | hw <;> rw [hw]
      · exact fifoInv_createWorker h
      · exact h
  | startThreads topt par =>
      simp only [stepE, Option.some.injEq] at hs
      subst hs
      exact fifoInv_spawnN _ s h
  | destroy =>
      simp only [stepE, Option.some.injEq] at hs
      subst hs
      exact fifoInv_destroy h

theorem fifoInv_reachable (max : Option Nat) {s : PoolState}
    (h : Reachable max s) : fifoInv s := by
  induction h with
  | init => rfl
  | step e hr hs ih => exact fifoInv_stepE hs ih

theorem nonneg_release {s : PoolState} (h : 0 ≤ s.usedSlots) :
    0 ≤ (releaseQueueSlot s).usedSlots := by
  rcases hW : s.slotWaiters with _ | ⟨w, rest⟩ <;> simp only [releaseQueueSlot, hW]
  · split
    · show 0 ≤ s.usedSlots - 1
      omega
    · exact h
  · show 0 ≤ s.usedSlots + 1
    omega

theorem nonneg_processQueueFuel (fuel : Nat) :
    ∀ s : PoolState, 0 ≤ s.usedSlots → 0 ≤ (processQueueFuel fuel s).usedSlots := by
  induction fuel with
  | zero => intro s h; simpa [processQueueFuel] using h
  | succ n ih =>
      intro s h
      rcases hI : s.idleWorkers with _ | ⟨wid, idleRest⟩ <;>
        rcases hQ : s.queue with _ | ⟨tid, qRest⟩ <;>
          simp only [processQueueFuel, hI, hQ]
      · exact h
      · exact h
      · exact h
      · apply ih
        exact nonneg_release (s := { s with idleWorkers := idleRest, queue := qRest }) h

theorem nonneg_processQueue {s : PoolState} (h : 0 ≤ s.usedSlots) :
    0 ≤ (processQueue s).usedSlots :=
  nonneg_processQueueFuel _ _ h

theorem nonneg_run (s : PoolState) (tid : Nat) (h : 0 ≤ s.usedSlots) :
    0 ≤ ((run s tid).1).usedSlots := by
  unfold run
  split
  · exact h
  · split
    · dsimp only; omega
    · exact h

theorem nonneg_stepE {s s' : PoolState} {e : Event}
    (hs : stepE s e = some s') (h : 0 ≤ s.usedSlots) : 0 ≤ s'.usedSlots := by
  cases e with
  | runStart tid =>
      simp only [stepE, Option.some.injEq] at hs
      subst hs
      exact nonneg_run s tid h
  | runContinue =>
      simp only [stepE] at hs
      rcases runContinue_eq s with ⟨hN, _⟩ | ⟨tid, rest, hP, ⟨hd, hEq⟩ | ⟨hd, hEq⟩⟩
      · rw [hN] at hs; simp at hs
      · rw [hEq] at hs
        simp only [Option.map_some', Option.some.injEq] at hs
        subst hs
        exact nonneg_release h
      · rw [hEq] at hs
        simp only [Option.map_some', Option.some.injEq] at hs
        subst hs
        exact nonneg_processQueue h
  | workerMessage wid v =>
      have hEq := stepE_workerMessage hs
      subst hEq
      obtain ⟨ws, st, hw⟩ := workerMessage_eq s wid v
      rw [hw]
      exact nonneg_processQueue h
  | workerError wid =>
      have hEq := stepE_workerError hs
      subst hEq
      obtain ⟨ws, st, hw⟩ := workerError_eq s wid
      rw [hw]
      exact nonneg_processQueue h
  | workerExit wid code =>
      have hEq := stepE_workerExit hs
      subst hEq
      rcases workerExit_eq s wid code with hw | hw <;> rw [hw]
      · exact h
      · exact h
  | startThreads topt par =>
      simp only [stepE, Option.some.injEq] at hs
      subst hs
      unfold startThreads
      generalize threadCount topt par = n
      induction n with
      | zero => exact h
      | succ m ihm => exact ihm
  | destroy =>
      simp only [stepE, Option.some.injEq] at hs
      subst hs
      show (0 : Int) ≤ 0
      omega

theorem nonneg_reachable (max : Option Nat) {s : PoolState}
    (h : Reachable max s) : 0 ≤ s.usedSlots := by
  induction h with
  | init => show (0 : Int) ≤ 0; omega
  | step e hr hs ih => exact nonneg_stepE hs ih

theorem releaseQueueSlot_destroyed (s : PoolState) :
    (releaseQueueSlot s).destroyed = s.destroyed := by
  rcases hW : s.slotWaiters with _ | ⟨w, rest⟩ <;> simp only [releaseQueueSlot, hW]
  split <;> rfl

/-- `releaseQueueSlot` restores the slot-accounting equation from a state
whose `usedSlots` is one above it (the situation right after a task left
the queue inside `processQueue`). -/
theorem slotAccounting_release {s : PoolState}
    (h : s.usedSlots
      = (s.pendingRuns.length : Int) + (s.queue.length : Int) + (s.handoffs : Int) + 1) :
    slotAccounting (releaseQueueSlot s) := by
  rcases hW : s.slotWaiters with _ | ⟨w, rest⟩ <;> simp only [releaseQueueSlot, hW]
  · split
    · unfold slotAccounting
      dsimp only
      omega
    · exfalso
      omega
  · unfold slotAccounting
    dsimp only
    simp only [List.length_append, List.length_singleton]
    push_cast
    omega

theorem slotInv_processQueueFuel (fuel : Nat) :
    ∀ s : PoolState, s.destroyed = false → slotAccounting s →
      (processQueueFuel fuel s).destroyed = false
      ∧ slotAccounting (processQueueFuel fuel s) := by
  induction fuel with
  | zero => intro s hd ha; exact ⟨hd, ha⟩
  | succ n ih =>
      intro s hd ha
      rcases hI : s.idleWorkers with _ | ⟨wid, idleRest⟩ <;>
        rcases hQ : s.queue with _ | ⟨tid, qRest⟩ <;>
          simp only [processQueueFuel, hI, hQ]
      · exact ⟨hd, ha⟩
      · exact ⟨hd, ha⟩
      · exact ⟨hd, ha⟩
      · apply ih
        · rw [releaseQueueSlot_destroyed]
          exact hd
        · have ha' : s.usedSlots
              = (s.pendingRuns.length : Int) + (qRest.length : Int) + (s.handoffs : Int) + 1 := by
            unfold slotAccounting at ha
            rw [hQ] at ha
            simp only [List.length_cons] at ha
            push_cast at ha
            omega
          exact slotAccounting_release
            (s := { s with idleWorkers := idleRest, queue := qRest }) ha'

theorem slotInv_run (s : PoolState) (tid : Nat)
    (hd : s.destroyed = false) (ha : slotAccounting s) :
    ((run s tid).1).destroyed = false ∧ slotAccounting ((run s tid).1) := by
  unfold run
  rw [if_neg (by simp [hd])]
  split
  · refine ⟨hd, ?_⟩
    unfold slotAccounting at *
    dsimp only
    simp only [List.length_append, List.length_singleton]
    push_cast
    omega
  · exact ⟨hd, ha⟩

theorem slotInv_stepE {s s' : PoolState} {e : Event}
    (hs : stepE s e = some s') (hne : e ≠ Event.destroy)
    (hd : s.destroyed = false) (ha : slotAccounting s) :
    s'.destroyed = false ∧ slotAccounting s' := by
  cases e with
  | runStart tid =>
      simp only [stepE, Option.some.injEq] at hs
      subst hs
      exact slotInv_run s tid hd ha
  | runContinue =>
      simp only [stepE] at hs
      rcases runContinue_eq s with ⟨hN, _⟩ | ⟨tid, rest, hP, ⟨hdt, hEq⟩ | ⟨hdt, hEq⟩⟩
      · rw [hN] at hs; simp at hs
      · rw [hd] at hdt; exact absurd hdt (by simp)
      · rw [hEq] at hs
        simp only [Option.map_some', Option.some.injEq] at hs
        subst hs
        apply slotInv_processQueueFuel
        · exact hd
        · unfold slotAccounting at ha ⊢
          dsimp only
          rw [hP] at ha
          simp only [List.length_cons, List.length_append, List.length_singleton,
            List.length_nil] at ha ⊢
          push_cast at ha ⊢
          omega
  | workerMessage wid v =>
      have hEq := stepE_workerMessage hs
      subst hEq
      obtain ⟨ws, st, hw⟩ := workerMessage_eq s wid v
      rw [hw]
      exact slotInv_processQueueFuel _ _ hd ha
  | workerError wid =>
      have hEq := stepE_workerError hs
      subst hEq
      obtain ⟨ws, st, hw⟩ := workerError_eq s wid
      rw [hw]
      exact slotInv_processQueueFuel _ _ hd ha
  | workerExit wid code =>
      have hEq := stepE_workerExit hs
      subst hEq
      rcases workerExit_eq s wid code with hw | hw <;> rw [hw]
      · exact ⟨hd, ha⟩
      · exact ⟨hd, ha⟩
  | startThreads topt par =>
      simp only [stepE, Option.some.injEq] at hs
      subst hs
      unfold startThreads
      generalize threadCount topt par = n
      induction n with
      | zero => exact ⟨hd, ha⟩
      | succ m ihm => exact ihm
  | destroy => exact absurd rfl hne

theorem slotInv_reachableNoDestroy (max : Option Nat) {s : PoolState}
    (h : ReachableNoDestroy max s) : s.destroyed = false ∧ slotAccounting s := by
  induction h with
  | init => exact ⟨rfl, by simp [slotAccounting, initState]⟩
  | step e hr hne hs ih => exact slotInv_stepE hs hne ih.1 ih.2

theorem spawnN_workers_length (n : Nat) :
    ∀ s : PoolState, (spawnN s n).workers.length = s.workers.length + n := by
  induction n with
  | zero => intro s; rfl
  | succ m ih =>
      intro s
      show (createWorker (spawnN s m)).workers.length = _
      simp only [createWorker, List.length_append, List.length_singleton, ih s]
      omega

theorem spawnN_idleWorkers_length (n : Nat) :
    ∀ s : PoolState, (spawnN s n).idleWorkers.length = s.idleWorkers.length + n := by
  induction n with
  | zero => intro s; rfl
  | succ m ih =>
      intro s
      show (createWorker (spawnN s m)).idleWorkers.length = _
      simp only [createWorker, List.length_append, List.length_singleton, ih s]
      omega

/-- C1: the claim states that `usedSlots` never exceeds `maxQueueSize` at
any observable instant, including hand-off to a waiter.  The code violates
it: with `maxQueueSize = 1` and one worker, admit caller 10, suspend caller
20 as a waiter, then let caller 10's continuation enqueue and dispatch its
task.  The dispatch's `releaseQueueSlot` hands the slot to waiter 20 whose
callback increments `usedSlots` while the released slot is never
decremented, leaving `usedSlots = 2 > 1` (and `isQueueFull` true with an
empty queue) — an observable, stable state. -/
theorem c1_used_slots_exceeds_max :
    (trace (some 1) [Event.startThreads (some 1) 4, Event.runStart 10,
        Event.runStart 20, Event.runContinue]).map
      (fun s => (s.usedSlots, s.maxQueueSize, isQueueFull s, s.queue.length, s.handoffs))
      = some (2, some 1, true, 0, 1) := by
  decide

/-- C2 (counterexample): the claim states `usedSlots` = queued + currently
executing, never exceeding the maximum.  First trace (`maxQueueSize = 5`):
after one task is dispatched, `usedSlots = 0` while one task is executing
(`currentTask` set) and none is queued, so queued + executing `= 1 ≠ 0`.
Second trace (`maxQueueSize = 1`, the hand-off leak): `usedSlots = 2` while
zero tasks are queued and one executes, so queued + executing `= 1 ≠ 2`,
and `2` also exceeds the configured maximum `1`. -/
theorem c2_used_slots_not_queued_plus_executing :
    ((trace (some 5) [Event.startThreads (some 1) 4, Event.runStart 1,
        Event.runContinue]).map
      (fun s => (s.usedSlots, s.queue.length, s.workers.map PooledWorker.currentTask))
      = some (0, 0, [some 1]))
    ∧ ((trace (some 1) [Event.startThreads (some 1) 4, Event.runStart 10,
        Event.runStart 20, Event.runContinue]).map
      (fun s => (s.usedSlots, s.maxQueueSize, s.queue.length,
                 s.workers.map PooledWorker.currentTask))
      = some (2, some 1, 0, [some 10])) := by
  constructor <;> decide

/-- C2 (amended): while the pool has not been destroyed, `usedSlots` equals
the number of admitted tasks not yet handed to a worker (those whose `run`
continuation is pending plus those in the queue) plus the number of slot
hand-offs `releaseQueueSlot` has performed to waiters; the slot is released
when a task leaves the queue, so currently-executing tasks are not counted,
and each hand-off permanently leaks one counted slot. -/
theorem c2_slot_accounting (max : Option Nat) (s : PoolState)
    (h : ReachableNoDestroy max s) :
    s.destroyed = false
    ∧ s.usedSlots
        = (s.pendingRuns.length : Int) + (s.queue.length : Int) + (s.handoffs : Int) := by
  have hInv := slotInv_reachableNoDestroy max h
  exact ⟨hInv.1, hInv.2⟩

theorem c2_slot_accounting_witness :
    (initState (some 2)).destroyed = false
    ∧ (initState (some 2)).usedSlots
        = ((initState (some 2)).pendingRuns.length : Int)
          + ((initState (some 2)).queue.length : Int)
          + ((initState (some 2)).handoffs : Int) :=
  c2_slot_accounting (some 2) (initState (some 2)) ReachableNoDestroy.init

/-- C3: the claim states that when a waiter is queued, `releaseQueueSlot`
pops the oldest waiter, hands it the slot, and `usedSlots` afterwards
equals its value before.  The code pops the oldest waiter (here `7`) but
the waiter's callback increments `usedSlots` with no matching decrement:
from `usedSlots = 3` the release yields `4`, not `3`.  (The no-waiter
branch does decrement: `3` yields `2`.) -/
theorem c3_release_transfer_increments :
    (releaseQueueSlot { initState (some 1) with slotWaiters := [7], usedSlots := 3 }).usedSlots = 4
    ∧ (releaseQueueSlot { initState (some 1) with slotWaiters := [7], usedSlots := 3 }).slotWaiters = []
    ∧ (releaseQueueSlot { initState (some 1) with slotWaiters := [7], usedSlots := 3 }).pendingRuns = [7]
    ∧ (releaseQueueSlot { initState (some 1) with usedSlots := 3 }).usedSlots = 2 := by
  refine ⟨?_, ?_, ?_, ?_⟩ <;> decide

/-- C4: the claim states that when a unit with an in-flight task exits
abnormally (code 1, pool not destroyed), the task's future rejects and the
unit count returns to the configured `threads` value.  Evaluated at that
failing input — one worker (threads = 1) executing task 1, then `exit`
with code 1 and no prior `error` event — the code spawns a replacement but:
the task never settles (`settled = []`), the dead unit (still holding
task 1) is never removed, and the unit list has 2 entries instead of 1. -/
theorem c4_exit_no_reject_and_unit_count_grows :
    (trace none [Event.startThreads (some 1) 4, Event.runStart 1, Event.runContinue,
        Event.workerExit 0 1]).map
      (fun s => (s.settled, s.workers, s.destroyed))
      = some ([],
          [{ wid := 0, currentTask := some 1, alive := false },
           { wid := 1, currentTask := none, alive := true }], false) := by
  decide

/-- C5: the claim states that when the execution function reports an error
for its input, that task's future rejects (onFail, not onComplete).
Evaluated at the failing input — a `defineWorker` function throwing
`"boom"` — `defineWorker` catches the error and posts it back as an
ordinary message carrying an error object, and the pool's `message` handler
then resolves the task's future with that object: the task settles as
`resolved`, not `rejected`. -/
theorem c5_task_error_resolves_not_rejects :
    (trace none [Event.startThreads (some 1) 4, Event.runStart 1, Event.runContinue,
        Event.workerMessage 0 (defineWorkerOnMessage (fun _ => Except.error "boom") 1)]).map
      PoolState.settled
      = some [(1, Settle.resolved (JSValue.errObj "boom"))] := by
  decide

/-- C6: `destroy()` is idempotent; afterwards the pool is marked destroyed,
every execution unit is terminated and dropped, the queue is discarded with
no task settled (`settled` unchanged), every slot waiter is released (the
waiter list empties and each former waiter's continuation is pending), a
subsequent `run` throws immediately leaving the state unchanged, and any
resumed waiter continuation observes the destroyed state and throws rather
than hangs. -/
theorem c6_destroy_idempotent_and_final (s : PoolState) (tid : Nat) :
    destroy (destroy s) = destroy s
    ∧ (destroy s).destroyed = true
    ∧ (destroy s).workers = []
    ∧ (destroy s).idleWorkers = []
    ∧ (destroy s).queue = []
    ∧ (destroy s).settled = s.settled
    ∧ (destroy s).slotWaiters = []
    ∧ (destroy s).pendingRuns = s.pendingRuns ++ s.slotWaiters
    ∧ run (destroy s) tid = (destroy s, RunResult.throwsDestroyed)
    ∧ (runContinue (destroy s)).map (fun p => p.2)
        = ((destroy s).pendingRuns.head?).map (fun _ => RunContinueResult.throwsDestroyed) := by
  refine ⟨?_, rfl, rfl, rfl, rfl, rfl, rfl, rfl, rfl, ?_⟩
  · simp [destroy]
  · rcases hP : s.pendingRuns ++ s.slotWaiters with _ | ⟨t, rest⟩ <;>
      simp [runContinue, destroy, hP]

/-- C7: the claim states a unit appears in the idle list iff its
`currentTask` is null, so no unit is assigned a second task before its
first settles.  The code violates it: the worker `error` handler pushes the
unit onto `idleWorkers` unconditionally, so a unit-level error with no
current task duplicates the unit's idle entry.  First trace: after such an
error and one dispatch, worker 0 still appears in `idleWorkers` while
holding task 1.  Second trace: a second submission is then dispatched to
the same unit, overwriting `currentTask` with task 2 while task 1 is still
unsettled (`settled = []`) — a second task assigned before the first
settles, and task 1's future is lost. -/
theorem c7_duplicate_idle_double_assignment :
    ((trace none [Event.startThreads (some 1) 4, Event.workerError 0, Event.runStart 1,
        Event.runContinue]).map
      (fun s => (s.idleWorkers, s.workers, s.settled))
      = some ([0], [{ wid := 0, currentTask := some 1, alive := true }], []))
    ∧ ((trace none [Event.startThreads (some 1) 4, Event.workerError 0, Event.runStart 1,
        Event.runContinue, Event.runStart 2, Event.runContinue]).map
      (fun s => (s.workers, s.settled))
      = some ([{ wid := 0, currentTask := some 2, alive := true }], [])) := by
  constructor <;> decide

/-- C8 (counterexample): the claim states the default spawn count is
`availableParallelism - 1` with a minimum of 1.  On a single-core host
(`availableParallelism = 1`) with no `threads` option, the code spawns
`1 - 1 = 0` workers — there is no floor of 1. -/
theorem c8_single_core_spawns_zero :
    (startThreads (initState none) none 1).workers.length = 0
    ∧ threadCount none 1 = 0 := by
  decide

/-- C8 (amended): `startThreads` spawns exactly `threads` execution units
when the option is given, and `availableParallelism - 1` units when it is
absent, with no minimum (zero units on a single-core host); each spawned
unit is also pushed onto the idle list. -/
theorem c8_spawn_count (s : PoolState) (threadsOpt : Option Nat) (parallelism n : Nat) :
    (startThreads s threadsOpt parallelism).workers.length
      = s.workers.length + threadCount threadsOpt parallelism
    ∧ (startThreads s threadsOpt parallelism).idleWorkers.length
      = s.idleWorkers.length + threadCount threadsOpt parallelism
    ∧ threadCount (some n) parallelism = n
    ∧ threadCount none parallelism = parallelism - 1 :=
  ⟨spawnN_workers_length _ s, spawnN_idleWorkers_length _ s, rfl, rfl⟩

/-- C9: admission is FIFO among waiters.  In every reachable state the
waiters resumed so far (`resumeLog`), followed by the waiters still
suspended (`slotWaiters`), are exactly the waiters that ever suspended
(`waitLog`) in arrival order: waiters are appended at the tail, resumed
only from the head, and never reordered — so if caller A blocked before
caller B, A is handed a slot (its `run` resumes) before B. -/
theorem c9_fifo_waiters (max : Option Nat) (s : PoolState)
    (h : Reachable max s) :
    s.resumeLog ++ s.slotWaiters = s.waitLog :=
  fifoInv_reachable max h

theorem c9_fifo_waiters_witness :
    ((run (initState (some 0)) 5).1).resumeLog ++ ((run (initState (some 0)) 5).1).slotWaiters
      = ((run (initState (some 0)) 5).1).waitLog :=
  c9_fifo_waiters (some 0) _ (Reachable.step (Event.runStart 5) Reachable.init rfl)

/-- C10: `usedSlots` is never negative in any reachable state:
`releaseQueueSlot` decrements only under its `usedSlots > 0` guard, the
waiter callback and `acquireQueueSlot` only increment, and `destroy` resets
the counter to 0. -/
theorem c10_used_slots_nonneg (max : Option Nat) (s : PoolState)
    (h : Reachable max s) :
    0 ≤ s.usedSlots :=
  nonneg_reachable max h

theorem c10_used_slots_nonneg_witness :
    0 ≤ (destroy (initState (some 1))).usedSlots :=
  c10_used_slots_nonneg (some 1) _ (Reachable.step Event.destroy Reachable.init rfl)
